import Mathlib

/-!
Verification of the core logic of pySystemInfo.

The development shallowly embeds the two source files:

* `src/systemInfo.py` — class `SysInfo`: the byte-size humanizer `getSize`
  and the snapshot properties (platform, CPU, memory, swap, disk, network).
  The class body evaluates `platform.uname()`, `psutil.cpu_freq()`,
  `psutil.virtual_memory()`, `psutil.swap_memory()`, `psutil.disk_partitions()`,
  `psutil.disk_io_counters()`, `psutil.net_if_addrs()` and
  `psutil.net_io_counters()` once, at class-definition (import) time; the
  properties then read those cached class attributes.  Properties that call
  psutil directly (`cpu_percent`, `cpu_count`, `disk_usage`, `boot_time`)
  read the operating system freshly at access time.
* `src/pySystemInfo.py` — a module-level `getSize` with the identical body.

Numbers: Python byte counts are unbounded ints; `bytes /= factor` produces
IEEE-754 doubles, every division being correctly rounded.  The faithful
embedding of the loop is `getSizeF`, built on `roundFloat` (round to nearest,
ties to even, 53 significant bits).  Only the first division can actually
round — dividing a double by 1024 afterwards is an exact exponent shift.  The
companion `getSize` computes the same loop with exact rational division; the
two coincide for inputs of at most 53 significant bits
(`getSizeF_eq_getSize`), which covers every concrete value in the claims, and
differ exactly in the last 64 byte counts below `1024^6`, where the first
division rounds the quotient up to `2^50`.
-/

namespace PySystemInfo

/-- Round a rational to the nearest integer, ties to even.  This is the
rounding CPython performs when formatting a float with a fixed number of
decimals: the exact binary value is correctly rounded, a tie going to the
even last digit. -/
def roundHalfEven (x : ℚ) : ℤ :=
  if x - (Int.floor x : ℚ) < 1/2 then Int.floor x
  else if 1/2 < x - (Int.floor x : ℚ) then Int.floor x + 1
  else if Int.floor x % 2 = 0 then Int.floor x else Int.floor x + 1

/-- Render a natural number below 100 as exactly two decimal digits. -/
def twoDigits (n : ℕ) : String :=
  (if n < 10 then "0" else "") ++ toString n

/-- Python's fixed-point rendering of a non-negative value with two decimals
(the format specification `.2f` used by `getSize`): the value is rounded to a
whole number of hundredths (ties to even) and printed as
`<integer part>.<two digits>`. -/
def formatF2 (q : ℚ) : String :=
  toString ((roundHalfEven (100 * q)).toNat / 100) ++ "." ++
    twoDigits ((roundHalfEven (100 * q)).toNat % 100)

/-- The loop of `getSize` (`src/systemInfo.py` lines 112-116) at exact
values: iterate over the unit list; when the running value drops below the
factor 1024, return the formatted string `<value:.2f><unit><suffix>`;
otherwise divide the value by 1024 and continue.  When the list is exhausted
the Python function falls off the end of the `for` loop and returns `None`.
This exact-division loop agrees with the float-semantics loop
`getSizeLoopF` below whenever the running value is a representable double
(`getSizeLoopF_eq_of_rep`). -/
def getSizeLoop : List String → ℚ → String → Option String
  | [], _, _ => none
  | u :: us, b, suffix =>
    if b < 1024 then some (formatF2 b ++ u ++ suffix)
    else getSizeLoop us (b / 1024) suffix

/-- `SysInfo.getSize` (`src/systemInfo.py` lines 106-116), identical to the
module-level `getSize` of `src/pySystemInfo.py` lines 40-50: humanize a byte
count using binary unit steps of `factor = 1024` over the unit list
`["", "K", "M", "G", "T", "P"]`.  The suffix parameter defaults to `"B"` at
the Python call sites.  This is the exact-value model; it equals the
float-faithful `getSizeF` for inputs below `2^53` (`getSizeF_eq_getSize`). -/
def getSize (b : ℚ) (suffix : String) : Option String :=
  getSizeLoop ["", "K", "M", "G", "T", "P"] b suffix

/-- Round to nearest, ties to even, at 53 significant bits: the IEEE-754
double-precision rounding CPython applies to the exact quotient in
`bytes /= factor` (an int/float division returns the correctly rounded
double).  Non-positive inputs are returned unchanged; overflow and
subnormals do not arise in the ranges the theorems use this in (the stated
results stay below `2^1024`). -/
def roundFloat (q : ℚ) : ℚ :=
  if q ≤ 0 then q
  else (roundHalfEven (q * 2 ^ (52 - Int.log 2 q)) : ℚ) * 2 ^ (Int.log 2 q - 52)

/-- The loop of `getSize` under Python's actual float semantics: the running
value after the first division is a double and every division is correctly
rounded.  Only the first division can actually round (an int with more than
53 significant bits); afterwards dividing a representable value by 1024
shifts the exponent exactly, which `roundFloat` reproduces
(`roundFloat_int_mul_zpow`). -/
def getSizeLoopF : List String → ℚ → String → Option String
  | [], _, _ => none
  | u :: us, b, suffix =>
    if b < 1024 then some (formatF2 b ++ u ++ suffix)
    else getSizeLoopF us (roundFloat (b / 1024)) suffix

/-- `getSize` under Python's float semantics: the faithful embedding of
lines 106-116 of `src/systemInfo.py` for arbitrary integer byte counts.  It
coincides with the exact-value model `getSize` whenever the input has at
most 53 significant bits (`getSizeF_eq_getSize`); the two differ only from
`2^53` on, in particular in the last 64 byte counts below `1024^6`, where
the first division rounds up to `2^50` and the loop falls through. -/
def getSizeF (b : ℚ) (suffix : String) : Option String :=
  getSizeLoopF ["", "K", "M", "G", "T", "P"] b suffix

/-- Fractional decimal digits of a value in `[0, 1)`: repeatedly multiply by
ten and emit the integer part, stopping when the remainder is zero or the
fuel runs out (17 significant digits suffice to round-trip a double). -/
def fracDigitsAux : ℕ → ℚ → List ℕ
  | 0, _ => []
  | fuel + 1, q =>
    if q = 0 then []
    else (Int.floor (q * 10)).toNat ::
      fracDigitsAux fuel (q * 10 - (Int.floor (q * 10) : ℚ))

/-- Python's `str()` of a non-negative float whose value is a short terminating
decimal (the shape psutil percent values take): the shortest decimal expansion,
with at least one fractional digit, e.g. `43.2`, `10.0`.  Used to model the
f-string interpolation `{self.svmem.percent}` at lines 217 and 236. -/
def pyFloatStr (q : ℚ) : String :=
  toString (Int.floor q).toNat ++ "." ++
    (match fracDigitsAux 17 (q - (Int.floor q : ℚ)) with
     | [] => "0"
     | ds => String.join (ds.map (fun d => toString d)))

/-- Python's string interpolation of a value that may be `None`: an f-string
renders `None` as the text `None`, and a string as itself. -/
def optStr : Option String → String
  | some s => s
  | none => "None"

/-! The snapshot data model.  `OSState` is the state of the operating system
as observable through the psutil and platform calls the source makes;
`SysInfo` is the set of class-level attributes of `class SysInfo`, which the
Python runtime computes once when `src/systemInfo.py` is imported (lines 119,
173, 201, 220, 240, 264, 275 and 299). -/

/-- Result of `platform.uname()`. -/
structure Uname where
  system : String
  node : String
  release : String
  version : String
  machine : String
  processor : String
deriving DecidableEq

/-- Result of `psutil.cpu_freq()` (MHz values). -/
structure CpuFreq where
  max : ℚ
  min : ℚ
  current : ℚ
deriving DecidableEq

/-- Result of `psutil.virtual_memory()` (the fields the source reads). -/
structure VMem where
  total : ℕ
  available : ℕ
  used : ℕ
  percent : ℚ
deriving DecidableEq

/-- Result of `psutil.swap_memory()` (the fields the source reads). -/
structure SwapMem where
  total : ℕ
  free : ℕ
  used : ℕ
  percent : ℚ
deriving DecidableEq

/-- One element of `psutil.disk_partitions()`. -/
structure Partition where
  device : String
  mountpoint : String
  fstype : String
deriving DecidableEq

/-- Result of `psutil.disk_usage(mountpoint)`. -/
structure DiskUsage where
  total : ℕ
  used : ℕ
  free : ℕ
  percent : ℚ
deriving DecidableEq

/-- Result of `psutil.disk_io_counters()` (the fields the source reads). -/
structure DiskIO where
  read_bytes : ℕ
  write_bytes : ℕ
deriving DecidableEq

/-- One address of an interface in `psutil.net_if_addrs()`.  `family` is the
string form `str(address.family)` distinguishes (`AddressFamily.AF_INET` for
IPv4 versus `AddressFamily.AF_PACKET` for link-layer); `netmask` and
`broadcast` may be `None`. -/
structure Addr where
  family : String
  address : String
  netmask : Option String
  broadcast : Option String
deriving DecidableEq

/-- Result of `psutil.net_io_counters()` (the fields the source reads). -/
structure NetIO where
  bytes_sent : ℕ
  bytes_recv : ℕ
deriving DecidableEq

/-- The operating-system state observable through the OS query functions the
source calls.  `diskUsage` maps a mountpoint to the result of
`psutil.disk_usage`, where `Except.error ()` models the `PermissionError`
raised for a device that is not ready (the only exception the source
catches). -/
structure OSState where
  uname : Uname
  cpuFreq : CpuFreq
  svmem : VMem
  swap : SwapMem
  partitions : List Partition
  diskIO : DiskIO
  ifAddrs : List (String × List Addr)
  netIO : NetIO
  cpuCountPhysical : ℕ
  cpuCountLogical : ℕ
  cpuPercentPercpu : List ℚ
  cpuPercentTotal : ℚ
  diskUsage : String → Except Unit DiskUsage

/-- The class-level attributes of `class SysInfo` (`src/systemInfo.py`):
each is assigned the result of one OS query, evaluated a single time when the
module is imported. -/
structure SysInfo where
  uname : Uname
  cpuFreq : CpuFreq
  svmem : VMem
  swap : SwapMem
  partitions : List Partition
  diskIO : DiskIO
  ifAddrs : List (String × List Addr)
  netIO : NetIO
deriving DecidableEq

/-- Evaluation of the class body of `SysInfo` at import time against the
operating-system state `σ` current at that moment (lines 119, 173, 201, 220,
240, 264, 275, 299 of `src/systemInfo.py`). -/
def SysInfo.init (σ : OSState) : SysInfo :=
  ⟨σ.uname, σ.cpuFreq, σ.svmem, σ.swap, σ.partitions, σ.diskIO, σ.ifAddrs, σ.netIO⟩

/-! The snapshot properties.  Each takes the instance `s` (whose class-level
attributes were cached at import) and the operating-system state `σ` current
at the moment the property is read; a property that performs a fresh psutil
call reads `σ`, one that reads a class attribute reads `s`. -/

/-- `SysInfo.System` (line 122): reads the cached `uname`. -/
def SysInfo.System (s : SysInfo) (_σ : OSState) : String :=
  s.uname.system

/-- `SysInfo.TotalMemory` (line 204): `getSize` of the cached `svmem.total`;
the Python property returns the result of `getSize` unchanged. -/
def SysInfo.TotalMemory (s : SysInfo) (_σ : OSState) : Option String :=
  getSize (s.svmem.total : ℚ) "B"

/-- `SysInfo.AvailableMemory` (line 208). -/
def SysInfo.AvailableMemory (s : SysInfo) (_σ : OSState) : Option String :=
  getSize (s.svmem.available : ℚ) "B"

/-- `SysInfo.UsedMemory` (line 212). -/
def SysInfo.UsedMemory (s : SysInfo) (_σ : OSState) : Option String :=
  getSize (s.svmem.used : ℚ) "B"

/-- `SysInfo.PercentageMemory` (lines 215-217): the OS-reported percent value
interpolated directly into an f-string with a percent sign appended. -/
def SysInfo.PercentageMemory (s : SysInfo) (_σ : OSState) : String :=
  pyFloatStr s.svmem.percent ++ "%"

/-- `SysInfo.TotalSwap` (line 223). -/
def SysInfo.TotalSwap (s : SysInfo) (_σ : OSState) : Option String :=
  getSize (s.swap.total : ℚ) "B"

/-- `SysInfo.AvailableSwap` (line 227): reads `swap.free`. -/
def SysInfo.AvailableSwap (s : SysInfo) (_σ : OSState) : Option String :=
  getSize (s.swap.free : ℚ) "B"

/-- `SysInfo.UsedSwap` (line 231). -/
def SysInfo.UsedSwap (s : SysInfo) (_σ : OSState) : Option String :=
  getSize (s.swap.used : ℚ) "B"

/-- `SysInfo.PercentageSwap` (lines 234-236): the OS-reported percent value
interpolated directly with a percent sign appended. -/
def SysInfo.PercentageSwap (s : SysInfo) (_σ : OSState) : String :=
  pyFloatStr s.swap.percent ++ "%"

/-- `SysInfo.PhysicalCores` (line 165): a fresh `psutil.cpu_count(logical=False)`. -/
def SysInfo.PhysicalCores (_s : SysInfo) (σ : OSState) : ℕ :=
  σ.cpuCountPhysical

/-- `SysInfo.TotalCores` (lines 168-170): a fresh `psutil.cpu_count(logical=True)`. -/
def SysInfo.TotalCores (_s : SysInfo) (σ : OSState) : ℕ :=
  σ.cpuCountLogical

/-- `SysInfo.CPUusage` (lines 188-194): starts from an empty list and appends
the per-core percentage for every element of the enumeration of a fresh
`psutil.cpu_percent(percpu=True)`. -/
def SysInfo.CPUusage (_s : SysInfo) (σ : OSState) : List ℚ :=
  σ.cpuPercentPercpu.enum.foldl (fun p x => p ++ [x.2]) []

/-- `SysInfo.TotalCPUusage` (lines 196-198). -/
def SysInfo.TotalCPUusage (_s : SysInfo) (σ : OSState) : String :=
  pyFloatStr σ.cpuPercentTotal ++ "%"

/-- Python dict assignment `p[k] = v` on a dict represented as its
insertion-ordered association list: an existing key keeps its position and
has its value replaced; a new key is appended at the end. -/
def dictInsert {κ α : Type} [DecidableEq κ] (p : List (κ × α)) (k : κ) (v : α) :
    List (κ × α) :=
  if k ∈ p.map Prod.fst then p.map (fun kv => if kv.1 = k then (k, v) else kv)
  else p ++ [(k, v)]

/-- The list `l` built for one successfully queried partition (lines 253-258):
mountpoint, filesystem type, the three humanized sizes (which are `None` if
`getSize` falls off its loop), and the percent value passed through `getSize`
inside an f-string with a percent sign appended. -/
def diskEntry (part : Partition) (u : DiskUsage) : List (Option String) :=
  [some part.mountpoint, some part.fstype,
   getSize (u.total : ℚ) "B", getSize (u.used : ℚ) "B", getSize (u.free : ℚ) "B",
   some (optStr (getSize u.percent "B") ++ "%")]

/-- One iteration of the partition loop (lines 246-260): query the usage of
the partition's mountpoint; on `PermissionError`, `continue` without touching
the dict; otherwise store the entry under the partition's device. -/
def diskStep (usage : String → Except Unit DiskUsage)
    (p : List (String × List (Option String))) (part : Partition) :
    List (String × List (Option String)) :=
  match usage part.mountpoint with
  | Except.error _ => p
  | Except.ok u => dictInsert p part.device (diskEntry part u)

/-- `SysInfo.DiskPartitions` (lines 242-261): fold the partition loop over the
cached partition list, starting from an empty dict; each `disk_usage` query is
performed freshly against the current OS state. -/
def SysInfo.DiskPartitions (s : SysInfo) (σ : OSState) :
    List (String × List (Option String)) :=
  s.partitions.foldl (diskStep σ.diskUsage) []

/-- `SysInfo.DiskTotalRead` (line 267): reads the cached `diskIO`. -/
def SysInfo.DiskTotalRead (s : SysInfo) (_σ : OSState) : Option String :=
  getSize (s.diskIO.read_bytes : ℚ) "B"

/-- `SysInfo.DiskTotalWrite` (line 271). -/
def SysInfo.DiskTotalWrite (s : SysInfo) (_σ : OSState) : Option String :=
  getSize (s.diskIO.write_bytes : ℚ) "B"

/-- The list `l` built for one (interface, address) pair (lines 284-291):
interface name, `str(address.family)`, address, netmask, broadcast. -/
def netEntry (interfaceName : String) (a : Addr) : List (Option String) :=
  [some interfaceName, some a.family, some a.address, a.netmask, a.broadcast]

/-- The body of the inner address loop (lines 283-294): store the entry under
the running counter `n` and increment it. -/
def netStepAddr (interfaceName : String)
    (acc : List (ℕ × List (Option String)) × ℕ) (a : Addr) :
    List (ℕ × List (Option String)) × ℕ :=
  (dictInsert acc.1 acc.2 (netEntry interfaceName a), acc.2 + 1)

/-- The body of the outer interface loop (line 282): run the inner loop over
the interface's address list. -/
def netStepIf (acc : List (ℕ × List (Option String)) × ℕ)
    (it : String × List Addr) : List (ℕ × List (Option String)) × ℕ :=
  it.2.foldl (netStepAddr it.1) acc

/-- `SysInfo.Networks` (lines 277-296): fold the nested loops over the cached
`ifAddrs`, starting from an empty dict and counter `n = 0`, and return the
dict. -/
def SysInfo.Networks (s : SysInfo) (_σ : OSState) :
    List (ℕ × List (Option String)) :=
  (s.ifAddrs.foldl netStepIf ([], 0)).1

/-- `SysInfo.TotalBytesSent` (line 302): reads the cached `netIO`. -/
def SysInfo.TotalBytesSent (s : SysInfo) (_σ : OSState) : Option String :=
  getSize (s.netIO.bytes_sent : ℚ) "B"

/-- `SysInfo.TotalBytesReceived` (line 306). -/
def SysInfo.TotalBytesReceived (s : SysInfo) (_σ : OSState) : Option String :=
  getSize (s.netIO.bytes_recv : ℚ) "B"

/-- The flattening of an interface-address table into the sequence of entries
in enumeration order: this is the shape the specification describes — one
entry per (interface, address) pair, covering every address of every
interface. -/
def netFlatten : List (String × List Addr) → List (List (Option String))
  | [] => []
  | it :: rest => it.2.map (netEntry it.1) ++ netFlatten rest

/-- A call of the method `SysInfo.getSize` viewed with the whole program state
explicit: the method reads only its two arguments (`self` is used solely for
dispatch, and no OS query is made), so the call returns the state unchanged
alongside its result. -/
def getSizeCall (s : SysInfo) (σ : OSState) (b : ℚ) (suffix : String) :
    (SysInfo × OSState) × Option String :=
  ((s, σ), getSize b suffix)

/-! Concrete operating-system states used to instantiate the theorems. -/

/-- A partition whose usage query succeeds. -/
def pOk : Partition := ⟨"devOk", "/", "ext4"⟩

/-- A partition whose usage query raises `PermissionError`. -/
def pBad : Partition := ⟨"devBad", "/bad", "ntfs"⟩

/-- A disk-usage result at 43.2 percent used. -/
def u43 : DiskUsage := ⟨1000000, 500000, 500000, 43.2⟩

/-- An operating-system state at import time. -/
def exOS : OSState where
  uname := ⟨"Linux", "host", "5.15.0", "5.15.0-generic", "x86_64", "x86_64"⟩
  cpuFreq := ⟨4000, 800, 2400⟩
  svmem := ⟨8000000, 4000000, 4000000, 10⟩
  swap := ⟨2000000, 1500000, 500000, 25⟩
  partitions := [pOk, pBad]
  diskIO := ⟨123456, 654321⟩
  ifAddrs := [("eth0", [⟨"AddressFamily.AF_INET", "192.168.0.2",
    some "255.255.255.0", some "192.168.0.255"⟩])]
  netIO := ⟨111, 222⟩
  cpuCountPhysical := 1
  cpuCountLogical := 2
  cpuPercentPercpu := [10, 20]
  cpuPercentTotal := 15
  diskUsage := fun m => if m = "/bad" then Except.error () else Except.ok u43

/-- The operating-system state at a later collection: the memory counters have
changed and the network interface has disappeared. -/
def exOS2 : OSState :=
  { exOS with svmem := ⟨16000000, 2000000, 14000000, 90⟩, ifAddrs := [] }

/-- An operating-system state whose memory byte counters differ from `exOS`
while the OS-reported used percentage is the same. -/
def exOS3 : OSState :=
  { exOS with svmem := ⟨999999, 111111, 888888, 10⟩ }

/-! Evaluation lemmas for the formatter.  The kernel cannot reduce `ℚ`
arithmetic (rational normalization uses well-founded recursion), so concrete
instances are computed through `norm_num` and the lemmas below. -/

theorem roundHalfEven_eq_of_lt (x : ℚ) (f : ℤ) (h1 : (f : ℚ) ≤ x)
    (h2 : x < (f : ℚ) + 1/2) : roundHalfEven x = f := by
  have hf : Int.floor x = f := by
    rw [Int.floor_eq_iff]
    exact ⟨h1, by linarith⟩
  unfold roundHalfEven
  rw [hf, if_pos (by linarith)]

theorem roundHalfEven_eq_of_gt (x : ℚ) (f : ℤ) (h1 : (f : ℚ) + 1/2 < x)
    (h2 : x < (f : ℚ) + 1) : roundHalfEven x = f + 1 := by
  have hf : Int.floor x = f := by
    rw [Int.floor_eq_iff]
    exact ⟨by linarith, by linarith⟩
  unfold roundHalfEven
  rw [hf, if_neg (by linarith), if_pos (by linarith)]

theorem formatF2_eq_of (q : ℚ) (n : ℕ) (h : roundHalfEven (100 * q) = (n : ℤ)) :
    formatF2 q = toString (n / 100) ++ "." ++ twoDigits (n % 100) := by
  unfold formatF2
  rw [h, Int.toNat_natCast]

theorem getSizeLoop_unit (k : ℕ) : ∀ (us : List String) (b : ℚ) (suffix : String),
    k < us.length → 1024 ^ k ≤ b → b < 1024 ^ (k + 1) →
    getSizeLoop us b suffix =
      some (formatF2 (b / 1024 ^ k) ++ us.getD k "" ++ suffix) := by
  induction k with
  | zero =>
    intro us b suffix hlen h1 h2
    cases us with
    | nil => simp at hlen
    | cons u us =>
      simp only [getSizeLoop]
      rw [if_pos (by rw [pow_one] at h2; exact h2)]
      rw [pow_zero, div_one]
      rfl
  | succ k ih =>
    intro us b suffix hlen h1 h2
    cases us with
    | nil => simp at hlen
    | cons u us =>
      have hb : ¬ b < 1024 := by
        rw [not_lt]
        calc (1024 : ℚ) = 1024 ^ 1 := (pow_one _).symm
          _ ≤ 1024 ^ (k + 1) := pow_le_pow_right₀ (by norm_num) (by omega)
          _ ≤ b := h1
      have h1' : (1024 : ℚ) ^ k ≤ b / 1024 := by
        rw [le_div_iff₀ (by norm_num : (0:ℚ) < 1024)]
        calc (1024 : ℚ) ^ k * 1024 = 1024 ^ (k + 1) := (pow_succ 1024 k).symm
          _ ≤ b := h1
      have h2' : b / 1024 < 1024 ^ (k + 1) := by
        rw [div_lt_iff₀ (by norm_num : (0:ℚ) < 1024)]
        calc b < 1024 ^ (k + 1 + 1) := h2
          _ = 1024 ^ (k + 1) * 1024 := pow_succ 1024 (k + 1)
      simp only [getSizeLoop]
      rw [if_neg hb,
        ih us (b / 1024) suffix (Nat.lt_of_succ_lt_succ (by simpa using hlen)) h1' h2']
      have e : b / 1024 / 1024 ^ k = b / 1024 ^ (k + 1) := by
        rw [div_div, ← pow_succ']
      rw [e]
      rfl

theorem getSize_unit (k : ℕ) (hk : k ≤ 5) (b : ℚ) (h1 : 1024 ^ k ≤ b)
    (h2 : b < 1024 ^ (k + 1)) (suffix : String) :
    getSize b suffix =
      some (formatF2 (b / 1024 ^ k) ++ ["", "K", "M", "G", "T", "P"].getD k "" ++ suffix) :=
  getSizeLoop_unit k _ b suffix (by simp; omega) h1 h2

theorem getSizeLoop_none : ∀ (us : List String) (b : ℚ) (suffix : String),
    1024 ^ us.length ≤ b → getSizeLoop us b suffix = none
  | [], _, _, _ => rfl
  | u :: us, b, suffix, h => by
    have hb : ¬ b < 1024 := by
      rw [not_lt]
      calc (1024 : ℚ) = 1024 ^ 1 := (pow_one _).symm
        _ ≤ 1024 ^ (u :: us).length := pow_le_pow_right₀ (by norm_num) (by simp)
        _ ≤ b := h
    simp only [getSizeLoop]
    rw [if_neg hb]
    refine getSizeLoop_none us (b / 1024) suffix ?_
    rw [le_div_iff₀ (by norm_num : (0:ℚ) < 1024)]
    calc (1024 : ℚ) ^ us.length * 1024 = 1024 ^ (us.length + 1) := (pow_succ 1024 _).symm
      _ = 1024 ^ (u :: us).length := by simp
      _ ≤ b := h

theorem getSize_none (b : ℚ) (suffix : String) (h : 1024 ^ 6 ≤ b) :
    getSize b suffix = none :=
  getSizeLoop_none _ b suffix (by simpa using h)

theorem getSize_some (b : ℚ) (suffix : String) (h6 : b < 1024 ^ 6) :
    ∃ s, getSize b suffix = some s := by
  rcases lt_or_le b 1024 with h | h
  · exact ⟨_, by simp only [getSize, getSizeLoop]; rw [if_pos h]⟩
  rcases lt_or_le b (1024 ^ 2) with h2 | h2
  · exact ⟨_, getSize_unit 1 (by norm_num) b (by rwa [pow_one]) h2 suffix⟩
  rcases lt_or_le b (1024 ^ 3) with h3 | h3
  · exact ⟨_, getSize_unit 2 (by norm_num) b h2 h3 suffix⟩
  rcases lt_or_le b (1024 ^ 4) with h4 | h4
  · exact ⟨_, getSize_unit 3 (by norm_num) b h3 h4 suffix⟩
  rcases lt_or_le b (1024 ^ 5) with h5 | h5
  · exact ⟨_, getSize_unit 4 (by norm_num) b h4 h5 suffix⟩
  · exact ⟨_, getSize_unit 5 (by norm_num) b h5 h6 suffix⟩

/-! Lemmas about double-precision rounding (`roundFloat`) and the
float-semantics loop (`getSizeLoopF`). -/

theorem two_zpow_pos (a : ℤ) : (0:ℚ) < 2 ^ a := zpow_pos (by norm_num) a

theorem two_zpow_mul (a b : ℤ) : (2:ℚ) ^ a * (2:ℚ) ^ b = 2 ^ (a + b) :=
  (zpow_add₀ (by norm_num) a b).symm

theorem two_zpow_le (a b : ℤ) (h : a ≤ b) : (2:ℚ) ^ a ≤ 2 ^ b :=
  zpow_le_zpow_right₀ (by norm_num) h

theorem qlog_le (q : ℚ) (hq : 0 < q) : (2:ℚ) ^ Int.log 2 q ≤ q := by
  have h := Int.zpow_log_le_self (b := 2) (by norm_num) hq
  norm_num at h
  exact h

theorem qlog_lt (q : ℚ) : q < (2:ℚ) ^ (Int.log 2 q + 1) := by
  have h := Int.lt_zpow_succ_log_self (b := 2) (by norm_num) q
  norm_num at h
  exact h

theorem le_qlog (q : ℚ) (hq : 0 < q) (x : ℤ) (h : (2:ℚ) ^ x ≤ q) : x ≤ Int.log 2 q :=
  (Int.zpow_le_iff_le_log (by norm_num) hq).mp (by exact_mod_cast h)

theorem qlog_lt_of_lt (q : ℚ) (hq : 0 < q) (x : ℤ) (h : q < (2:ℚ) ^ x) :
    Int.log 2 q < x :=
  (Int.lt_zpow_iff_log_lt (by norm_num) hq).mp (by exact_mod_cast h)

theorem roundHalfEven_intCast (z : ℤ) : roundHalfEven (z : ℚ) = z := by
  unfold roundHalfEven
  rw [Int.floor_intCast, if_pos (by rw [sub_self]; norm_num)]

theorem floor_le_roundHalfEven (x : ℚ) : Int.floor x ≤ roundHalfEven x := by
  unfold roundHalfEven
  split
  · exact le_refl _
  split
  · omega
  split <;> omega

theorem roundHalfEven_le (x : ℚ) : (roundHalfEven x : ℚ) ≤ x + 1/2 := by
  have hf := Int.floor_le x
  unfold roundHalfEven
  by_cases h1 : x - (Int.floor x : ℚ) < 1/2
  · rw [if_pos h1]
    linarith
  · rw [if_neg h1]
    by_cases h2 : (1:ℚ)/2 < x - (Int.floor x : ℚ)
    · rw [if_pos h2]
      push_cast
      linarith
    · rw [if_neg h2]
      have h3 : x - (Int.floor x : ℚ) = 1/2 := le_antisymm (not_lt.mp h2) (not_lt.mp h1)
      by_cases h4 : Int.floor x % 2 = 0
      · rw [if_pos h4]
        linarith
      · rw [if_neg h4]
        push_cast
        linarith

theorem roundFloat_pos_eq (q : ℚ) (hq : 0 < q) :
    roundFloat q =
      (roundHalfEven (q * 2 ^ (52 - Int.log 2 q)) : ℚ) * 2 ^ (Int.log 2 q - 52) := by
  unfold roundFloat
  rw [if_neg (not_le.mpr hq)]

theorem sig_lower (q : ℚ) (hq : 0 < q) :
    (2:ℚ) ^ (52:ℤ) ≤ q * 2 ^ (52 - Int.log 2 q) := by
  have h1 := qlog_le q hq
  have hp := two_zpow_pos (52 - Int.log 2 q)
  calc (2:ℚ) ^ (52:ℤ) = 2 ^ (Int.log 2 q + (52 - Int.log 2 q)) := by
        rw [show Int.log 2 q + (52 - Int.log 2 q) = (52:ℤ) from by ring]
    _ = 2 ^ Int.log 2 q * 2 ^ (52 - Int.log 2 q) := (two_zpow_mul _ _).symm
    _ ≤ q * 2 ^ (52 - Int.log 2 q) := mul_le_mul_of_nonneg_right h1 (le_of_lt hp)

theorem sig_upper (q : ℚ) (_hq : 0 < q) :
    q * 2 ^ (52 - Int.log 2 q) < (2:ℚ) ^ (53:ℤ) := by
  have h2 := qlog_lt q
  have hp := two_zpow_pos (52 - Int.log 2 q)
  calc q * 2 ^ (52 - Int.log 2 q) < 2 ^ (Int.log 2 q + 1) * 2 ^ (52 - Int.log 2 q) :=
        mul_lt_mul_of_pos_right h2 hp
    _ = 2 ^ (Int.log 2 q + 1 + (52 - Int.log 2 q)) := two_zpow_mul _ _
    _ = 2 ^ (53:ℤ) := by
        rw [show Int.log 2 q + 1 + (52 - Int.log 2 q) = (53:ℤ) from by ring]

theorem roundFloat_int_mul_zpow (n : ℕ) (hn : 0 < n) (h53 : n < 2 ^ 53) (s : ℤ) :
    roundFloat ((n : ℚ) * 2 ^ s) = (n : ℚ) * 2 ^ s := by
  have hq : (0:ℚ) < (n : ℚ) * 2 ^ s :=
    mul_pos (by exact_mod_cast hn) (two_zpow_pos s)
  rw [roundFloat_pos_eq _ hq]
  set e := Int.log 2 ((n : ℚ) * 2 ^ s) with he
  have hes : e ≤ s + 52 := by
    have hn' : (n : ℚ) < 2 ^ (53:ℤ) := by
      have h1 : (n : ℚ) < ((2 ^ 53 : ℕ) : ℚ) := by exact_mod_cast h53
      have h2 : ((2 ^ 53 : ℕ) : ℚ) = 2 ^ (53:ℤ) := by
        push_cast
        norm_num
      rw [h2] at h1
      exact h1
    have hlt : (n : ℚ) * 2 ^ s < 2 ^ (s + 53) := by
      calc (n : ℚ) * 2 ^ s < 2 ^ (53:ℤ) * 2 ^ s :=
            mul_lt_mul_of_pos_right hn' (two_zpow_pos s)
        _ = 2 ^ ((53:ℤ) + s) := two_zpow_mul _ _
        _ = 2 ^ (s + 53) := by rw [add_comm]
    have := qlog_lt_of_lt _ hq (s + 53) hlt
    omega
  have hkey : ((n * 2 ^ (s + 52 - e).toNat : ℕ) : ℚ) = (n : ℚ) * 2 ^ s * 2 ^ (52 - e) := by
    push_cast
    rw [← zpow_natCast (2:ℚ) (s + 52 - e).toNat,
      Int.toNat_of_nonneg (by omega : (0:ℤ) ≤ s + 52 - e),
      mul_assoc, two_zpow_mul, show s + (52 - e) = s + 52 - e from by ring]
  rw [← hkey]
  have hrh : roundHalfEven ((n * 2 ^ (s + 52 - e).toNat : ℕ) : ℚ) =
      ((n * 2 ^ (s + 52 - e).toNat : ℕ) : ℤ) := by
    have h := roundHalfEven_intCast ((n * 2 ^ (s + 52 - e).toNat : ℕ) : ℤ)
    push_cast at h ⊢
    exact h
  rw [hrh]
  push_cast
  rw [← zpow_natCast (2:ℚ) (s + 52 - e).toNat,
    Int.toNat_of_nonneg (by omega : (0:ℤ) ≤ s + 52 - e),
    mul_assoc, two_zpow_mul, show s + 52 - e + (e - 52) = s from by ring]

theorem roundFloat_rep (q : ℚ) (hq : 0 < q) :
    ∃ (m : ℕ) (s : ℤ), 0 < m ∧ m < 2 ^ 53 ∧ roundFloat q = (m : ℚ) * 2 ^ s := by
  have hlo := sig_lower q hq
  have hhi := sig_upper q hq
  have hpos := roundFloat_pos_eq q hq
  set e := Int.log 2 q with he
  set R := roundHalfEven (q * 2 ^ (52 - e)) with hR
  have hbridge : ((2 ^ 52 : ℤ) : ℚ) = 2 ^ (52:ℤ) := by
    push_cast
    norm_num
  have hRlo : (2 ^ 52 : ℤ) ≤ R := by
    have hfl : (2 ^ 52 : ℤ) ≤ Int.floor (q * 2 ^ (52 - e)) := by
      rw [Int.le_floor, hbridge]
      exact hlo
    exact le_trans hfl (floor_le_roundHalfEven _)
  have hRhi : R ≤ 2 ^ 53 := by
    by_contra hc
    push_neg at hc
    have hcq : ((2:ℚ) ^ (53:ℤ)) + 1 ≤ (R : ℚ) := by
      have h1 : (2 ^ 53 + 1 : ℤ) ≤ R := by omega
      have h3 : ((2 ^ 53 + 1 : ℤ) : ℚ) = 2 ^ (53:ℤ) + 1 := by
        push_cast
        norm_num
      rw [← h3]
      exact_mod_cast h1
    have h1 := roundHalfEven_le (q * 2 ^ (52 - e))
    rw [← hR] at h1
    linarith
  rcases lt_or_eq_of_le hRhi with hRlt | hReq
  · refine ⟨R.toNat, e - 52, by omega, by omega, ?_⟩
    rw [hpos]
    congr 1
    exact_mod_cast (Int.toNat_of_nonneg (by omega : (0:ℤ) ≤ R)).symm
  · refine ⟨2 ^ 52, e - 51, by norm_num, by norm_num, ?_⟩
    rw [hpos, hReq]
    have l1 : ((2 ^ 53 : ℤ) : ℚ) = 2 ^ (53:ℤ) := by
      push_cast
      norm_num
    have l2 : ((2 ^ 52 : ℕ) : ℚ) = 2 ^ (52:ℤ) := by
      push_cast
      norm_num
    rw [l1, l2, two_zpow_mul, two_zpow_mul]
    congr 1
    ring

theorem roundFloat_ge_two_zpow (q : ℚ) (c : ℤ) (h : (2:ℚ) ^ c ≤ q) :
    (2:ℚ) ^ c ≤ roundFloat q := by
  have hq : 0 < q := lt_of_lt_of_le (two_zpow_pos c) h
  rw [roundFloat_pos_eq q hq]
  have hce : c ≤ Int.log 2 q := le_qlog q hq c h
  have hbridge : ((2 ^ 52 : ℤ) : ℚ) = 2 ^ (52:ℤ) := by
    push_cast
    norm_num
  have hRlo : ((2:ℚ) ^ (52:ℤ)) ≤ (roundHalfEven (q * 2 ^ (52 - Int.log 2 q)) : ℚ) := by
    have hfl : (2 ^ 52 : ℤ) ≤ Int.floor (q * 2 ^ (52 - Int.log 2 q)) := by
      rw [Int.le_floor, hbridge]
      exact sig_lower q hq
    rw [← hbridge]
    exact_mod_cast le_trans hfl (floor_le_roundHalfEven _)
  calc (2:ℚ) ^ c ≤ 2 ^ Int.log 2 q := two_zpow_le _ _ hce
    _ = 2 ^ (52:ℤ) * 2 ^ (Int.log 2 q - 52) := by
        rw [two_zpow_mul, show (52:ℤ) + (Int.log 2 q - 52) = Int.log 2 q from by ring]
    _ ≤ _ := mul_le_mul_of_nonneg_right hRlo (le_of_lt (two_zpow_pos _))

theorem roundFloat_le (q : ℚ) (hq : 0 < q) :
    roundFloat q ≤ q + 2 ^ (Int.log 2 q - 53) := by
  rw [roundFloat_pos_eq q hq]
  have h1 := roundHalfEven_le (q * 2 ^ (52 - Int.log 2 q))
  have hp := two_zpow_pos (Int.log 2 q - 52)
  calc (roundHalfEven (q * 2 ^ (52 - Int.log 2 q)) : ℚ) * 2 ^ (Int.log 2 q - 52)
      ≤ (q * 2 ^ (52 - Int.log 2 q) + 1/2) * 2 ^ (Int.log 2 q - 52) :=
        mul_le_mul_of_nonneg_right h1 (le_of_lt hp)
    _ = q * (2 ^ (52 - Int.log 2 q) * 2 ^ (Int.log 2 q - 52)) +
        (1/2) * 2 ^ (Int.log 2 q - 52) := by ring
    _ = q + 2 ^ (Int.log 2 q - 53) := by
        rw [two_zpow_mul, show (52 - Int.log 2 q) + (Int.log 2 q - 52) = (0:ℤ) from by ring,
          zpow_zero, mul_one, show (1/2 : ℚ) = 2 ^ (-1 : ℤ) from by norm_num, two_zpow_mul,
          show (-1 : ℤ) + (Int.log 2 q - 52) = Int.log 2 q - 53 from by ring]

theorem roundFloat_lt_two_zpow (q : ℚ) (c : ℤ) (hq : 0 < q) (h1 : q < (2:ℚ) ^ c)
    (h2 : q + (2:ℚ) ^ (c - 54) < 2 ^ c) : roundFloat q < 2 ^ c := by
  have he : Int.log 2 q < c := qlog_lt_of_lt q hq c h1
  have hle := roundFloat_le q hq
  have hmono : (2:ℚ) ^ (Int.log 2 q - 53) ≤ 2 ^ (c - 54) := two_zpow_le _ _ (by omega)
  linarith

theorem roundFloat_eq_top (q : ℚ) (h1 : (2:ℚ) ^ (50:ℤ) - 2 ^ (-4:ℤ) ≤ q)
    (h2 : q < (2:ℚ) ^ (50:ℤ)) : roundFloat q = (2:ℚ) ^ (50:ℤ) := by
  have hq : 0 < q := lt_of_lt_of_le (by norm_num) h1
  have he : Int.log 2 q = 49 := by
    have hlo : (49:ℤ) ≤ Int.log 2 q := le_qlog q hq 49 (le_trans (by norm_num) h1)
    have hhi : Int.log 2 q < 50 := qlog_lt_of_lt q hq 50 h2
    omega
  rw [roundFloat_pos_eq q hq, he, show (52:ℤ) - 49 = 3 from by norm_num,
    show ((2:ℚ) ^ (3:ℤ)) = 8 from by norm_num, show (49:ℤ) - 52 = -3 from by norm_num]
  have hx1 : (2:ℚ) ^ (53:ℕ) - 1/2 ≤ q * 8 := by
    norm_num at h1 ⊢
    linarith
  have hx2 : q * 8 < (2:ℚ) ^ (53:ℕ) := by
    norm_num at h2 ⊢
    linarith
  have hfloor : Int.floor (q * 8) = 2 ^ 53 - 1 := by
    rw [Int.floor_eq_iff]
    constructor
    · push_cast
      linarith
    · push_cast
      linarith
  have hRH : roundHalfEven (q * 8) = 2 ^ 53 := by
    unfold roundHalfEven
    rw [hfloor]
    have hge : (1:ℚ)/2 ≤ q * 8 - ((2 ^ 53 - 1 : ℤ) : ℚ) := by
      push_cast
      linarith
    rw [if_neg (not_lt.mpr hge)]
    by_cases hc : (1:ℚ)/2 < q * 8 - ((2 ^ 53 - 1 : ℤ) : ℚ)
    · rw [if_pos hc]
      ring
    · rw [if_neg hc, if_neg (by omega)]
      ring
  rw [hRH]
  push_cast
  norm_num

theorem getSizeLoopF_none : ∀ (us : List String) (v : ℚ) (suffix : String),
    (1024:ℚ) ^ us.length ≤ v → getSizeLoopF us v suffix = none
  | [], _, _, _ => rfl
  | u :: us, v, suffix, h => by
    have hb : ¬ v < 1024 := by
      rw [not_lt]
      calc (1024:ℚ) = 1024 ^ 1 := (pow_one _).symm
        _ ≤ 1024 ^ (u :: us).length := pow_le_pow_right₀ (by norm_num) (by simp)
        _ ≤ v := h
    simp only [getSizeLoopF]
    rw [if_neg hb]
    refine getSizeLoopF_none us (roundFloat (v / 1024)) suffix ?_
    have h1 : (2:ℚ) ^ ((10 * us.length : ℕ) : ℤ) ≤ v / 1024 := by
      rw [le_div_iff₀ (by norm_num : (0:ℚ) < 1024)]
      calc (2:ℚ) ^ ((10 * us.length : ℕ) : ℤ) * 1024
          = (1024:ℚ) ^ us.length * 1024 := by
            rw [zpow_natCast]
            congr 1
            rw [pow_mul]
            norm_num
        _ = 1024 ^ (us.length + 1) := (pow_succ _ _).symm
        _ = 1024 ^ (u :: us).length := by simp
        _ ≤ v := h
    have h2 := roundFloat_ge_two_zpow _ _ h1
    calc (1024:ℚ) ^ us.length = (2:ℚ) ^ ((10 * us.length : ℕ) : ℤ) := by
          rw [zpow_natCast, pow_mul]
          norm_num
      _ ≤ _ := h2

theorem getSizeLoopF_eq_of_rep : ∀ (us : List String) (m : ℕ) (s : ℤ) (suffix : String),
    0 < m → m < 2 ^ 53 →
    getSizeLoopF us ((m : ℚ) * 2 ^ s) suffix = getSizeLoop us ((m : ℚ) * 2 ^ s) suffix
  | [], _, _, _, _, _ => rfl
  | u :: us, m, s, suffix, hm, h53 => by
    simp only [getSizeLoopF, getSizeLoop]
    by_cases hlt : (m : ℚ) * 2 ^ s < 1024
    · rw [if_pos hlt, if_pos hlt]
    · rw [if_neg hlt, if_neg hlt]
      have hdiv : ((m : ℚ) * 2 ^ s) / 1024 = (m : ℚ) * 2 ^ (s - 10) := by
        rw [mul_div_assoc]
        congr 1
        rw [show (1024:ℚ) = 2 ^ (10:ℤ) from by norm_num,
          ← zpow_sub₀ (by norm_num : (2:ℚ) ≠ 0)]
      rw [hdiv, roundFloat_int_mul_zpow m hm h53 (s - 10)]
      exact getSizeLoopF_eq_of_rep us m (s - 10) suffix hm h53

theorem getSizeF_eq_getSize (b : ℕ) (hb : b < 2 ^ 53) (suffix : String) :
    getSizeF (b:ℚ) suffix = getSize (b:ℚ) suffix := by
  rcases Nat.eq_zero_or_pos b with rfl | hpos
  · have h : ((0:ℕ) : ℚ) < 1024 := by norm_num
    simp only [getSizeF, getSizeLoopF, getSize, getSizeLoop]
    rw [if_pos h, if_pos h]
  · have hz : (b:ℚ) = (b:ℚ) * 2 ^ ((0:ℤ)) := by
      rw [zpow_zero, mul_one]
    rw [hz]
    show getSizeLoopF _ _ _ = getSizeLoop _ _ _
    exact getSizeLoopF_eq_of_rep _ b 0 suffix hpos hb

theorem getSizeF_pbucket (b : ℕ) (suffix : String) (hlo : 2 ^ 50 ≤ b)
    (hhi : b ≤ 2 ^ 60 - 65) :
    getSizeF (b:ℚ) suffix =
      some (formatF2 (roundFloat ((b:ℚ) / 1024) / 1024 ^ 4) ++ "P" ++ suffix) := by
  have hb1024 : ¬ (b:ℚ) < 1024 := by
    rw [not_lt]
    exact_mod_cast le_trans (by norm_num : (1024:ℕ) ≤ 2 ^ 50) hlo
  have hbq : (2:ℚ) ^ (50:ℕ) ≤ (b:ℚ) := by exact_mod_cast hlo
  have hbq' : (b:ℚ) ≤ 2 ^ (60:ℕ) - 65 := by
    have h' : b + 65 ≤ 2 ^ 60 := by omega
    have h'' : (b:ℚ) + 65 ≤ 2 ^ (60:ℕ) := by exact_mod_cast h'
    linarith
  have hq : (0:ℚ) < (b:ℚ) / 1024 := by
    apply div_pos _ (by norm_num : (0:ℚ) < 1024)
    calc (0:ℚ) < 2 ^ (50:ℕ) := by norm_num
      _ ≤ (b:ℚ) := hbq
  have hlit : (1125899906842624:ℚ) ≤ (b:ℚ) := by
    exact_mod_cast (by omega : 1125899906842624 ≤ b)
  have hlit' : (b:ℚ) + 65 ≤ 1152921504606846976 := by
    exact_mod_cast (by omega : b + 65 ≤ 1152921504606846976)
  have hvlo : (1024:ℚ) ^ 4 ≤ roundFloat ((b:ℚ) / 1024) := by
    have h1 : (2:ℚ) ^ (40:ℤ) ≤ (b:ℚ) / 1024 := by
      rw [le_div_iff₀ (by norm_num : (0:ℚ) < 1024)]
      have he : (2:ℚ) ^ (40:ℤ) * 1024 = 1125899906842624 := by norm_num
      rw [he]
      exact hlit
    calc (1024:ℚ) ^ 4 = (2:ℚ) ^ (40:ℤ) := by norm_num
      _ ≤ _ := roundFloat_ge_two_zpow _ _ h1
  have hvhi : roundFloat ((b:ℚ) / 1024) < (1024:ℚ) ^ 5 := by
    have h1 : (b:ℚ) / 1024 < (2:ℚ) ^ (50:ℤ) := by
      rw [div_lt_iff₀ (by norm_num : (0:ℚ) < 1024)]
      have he : (2:ℚ) ^ (50:ℤ) * 1024 = 1152921504606846976 := by norm_num
      rw [he]
      linarith
    have h2 : (b:ℚ) / 1024 + (2:ℚ) ^ ((50:ℤ) - 54) < 2 ^ (50:ℤ) := by
      have e1 : (2:ℚ) ^ ((50:ℤ) - 54) = 1/16 := by norm_num
      have e2 : (2:ℚ) ^ (50:ℤ) = 1125899906842624 := by norm_num
      rw [e1, e2]
      linarith
    calc roundFloat ((b:ℚ) / 1024) < (2:ℚ) ^ (50:ℤ) :=
        roundFloat_lt_two_zpow _ _ hq h1 h2
      _ = (1024:ℚ) ^ 5 := by norm_num
  obtain ⟨m, s, hm, h53, heq⟩ := roundFloat_rep ((b:ℚ) / 1024) hq
  have step : getSizeF (b:ℚ) suffix =
      getSizeLoopF ["K", "M", "G", "T", "P"] (roundFloat ((b:ℚ) / 1024)) suffix := by
    simp only [getSizeF, getSizeLoopF]
    rw [if_neg hb1024]
  rw [step, heq, getSizeLoopF_eq_of_rep _ m s suffix hm h53,
    getSizeLoop_unit 4 _ _ suffix (by simp) (heq ▸ hvlo) (heq ▸ hvhi)]
  rfl

theorem getSizeF_some_below_cutoff (b : ℕ) (suffix : String) (h : b < 2 ^ 60 - 64) :
    ∃ s, getSizeF (b:ℚ) suffix = some s := by
  rcases lt_or_le b (2 ^ 50) with h50 | h50
  · rw [getSizeF_eq_getSize b (lt_of_lt_of_le h50 (by norm_num)) suffix]
    refine getSize_some _ _ ?_
    have hb : b < 1024 ^ 6 := lt_of_lt_of_le h50 (by norm_num)
    exact_mod_cast hb
  · exact ⟨_, getSizeF_pbucket b suffix h50 (by omega)⟩

theorem getSizeF_none_above_cutoff (b : ℕ) (suffix : String) (h : 2 ^ 60 - 64 ≤ b) :
    getSizeF (b:ℚ) suffix = none := by
  rcases lt_or_le b (2 ^ 60) with htop | htop
  · have hb1024 : ¬ (b:ℚ) < 1024 := by
      rw [not_lt]
      exact_mod_cast (by omega : (1024:ℕ) ≤ b)
    have hfl : roundFloat ((b:ℚ) / 1024) = (2:ℚ) ^ (50:ℤ) := by
      apply roundFloat_eq_top
      · rw [le_div_iff₀ (by norm_num : (0:ℚ) < 1024)]
        have h' : (1152921504606846976:ℚ) ≤ (b:ℚ) + 64 := by
          exact_mod_cast (by omega : 1152921504606846976 ≤ b + 64)
        have he : ((2:ℚ) ^ (50:ℤ) - 2 ^ (-4:ℤ)) * 1024 = 1152921504606846912 := by
          norm_num
        rw [he]
        linarith
      · rw [div_lt_iff₀ (by norm_num : (0:ℚ) < 1024)]
        have h'' : (b:ℚ) < 1152921504606846976 := by
          exact_mod_cast (by omega : b < 1152921504606846976)
        have he : (2:ℚ) ^ (50:ℤ) * 1024 = 1152921504606846976 := by norm_num
        rw [he]
        exact h''
    have step : getSizeF (b:ℚ) suffix =
        getSizeLoopF ["K", "M", "G", "T", "P"] (roundFloat ((b:ℚ) / 1024)) suffix := by
      simp only [getSizeF, getSizeLoopF]
      rw [if_neg hb1024]
    rw [step, hfl]
    apply getSizeLoopF_none
    norm_num
  · show getSizeLoopF ["", "K", "M", "G", "T", "P"] (b:ℚ) suffix = none
    apply getSizeLoopF_none
    have hb : (1152921504606846976:ℚ) ≤ (b:ℚ) := by
      exact_mod_cast (by omega : 1152921504606846976 ≤ b)
    have he : (1024:ℚ) ^ (["", "K", "M", "G", "T", "P"].length) = 1152921504606846976 := by
      norm_num
    rw [he]
    exact hb

/-! Evaluation lemmas for `pyFloatStr`. -/

theorem fracDigitsAux_zero (fuel : ℕ) : fracDigitsAux fuel 0 = [] := by
  cases fuel <;> simp [fracDigitsAux]

theorem pyFloatStr_eq_nat (q : ℚ) (n : ℕ) (hq : q = (n : ℚ)) :
    pyFloatStr q = toString n ++ "." ++ "0" := by
  subst hq
  unfold pyFloatStr
  rw [Int.floor_natCast]
  have e : ((n : ℚ)) - ((n : ℤ) : ℚ) = 0 := by push_cast; ring
  rw [e, fracDigitsAux_zero, Int.toNat_natCast]

/-! Lemmas about `dictInsert` (Python dict assignment). -/

theorem mem_keys_dictInsert_self {κ α : Type} [DecidableEq κ]
    (p : List (κ × α)) (k : κ) (v : α) :
    k ∈ (dictInsert p k v).map Prod.fst := by
  unfold dictInsert
  by_cases hc : k ∈ p.map Prod.fst
  · rw [if_pos hc, List.map_map]
    rcases List.mem_map.mp hc with ⟨kv, hkv, hfst⟩
    exact List.mem_map.mpr ⟨kv, hkv, by simp [hfst]⟩
  · rw [if_neg hc, List.map_append]
    simp

theorem mem_keys_dictInsert_mono {κ α : Type} [DecidableEq κ]
    {p : List (κ × α)} {a k : κ} (v : α)
    (h : a ∈ p.map Prod.fst) : a ∈ (dictInsert p k v).map Prod.fst := by
  unfold dictInsert
  by_cases hc : k ∈ p.map Prod.fst
  · rw [if_pos hc, List.map_map]
    rcases List.mem_map.mp h with ⟨kv, hkv, hfst⟩
    refine List.mem_map.mpr ⟨kv, hkv, ?_⟩
    by_cases hk : kv.1 = k
    · simp only [Function.comp_apply, if_pos hk]
      exact hk.symm.trans hfst
    · simp only [Function.comp_apply, if_neg hk]
      exact hfst
  · rw [if_neg hc, List.map_append]
    exact List.mem_append_left _ h

theorem keys_dictInsert_sub {κ α : Type} [DecidableEq κ]
    {p : List (κ × α)} {a k : κ} {v : α}
    (h : a ∈ (dictInsert p k v).map Prod.fst) : a = k ∨ a ∈ p.map Prod.fst := by
  unfold dictInsert at h
  by_cases hc : k ∈ p.map Prod.fst
  · rw [if_pos hc, List.map_map] at h
    rcases List.mem_map.mp h with ⟨kv, hkv, hfst⟩
    by_cases hk : kv.1 = k
    · left
      simp only [Function.comp_apply, if_pos hk] at hfst
      exact hfst.symm
    · right
      simp only [Function.comp_apply, if_neg hk] at hfst
      exact List.mem_map.mpr ⟨kv, hkv, hfst⟩
  · rw [if_neg hc, List.map_append] at h
    rcases List.mem_append.mp h with h1 | h1
    · right; exact h1
    · left; simpa using h1

theorem mem_of_mem_dictInsert {κ α : Type} [DecidableEq κ]
    {p : List (κ × α)} {k : κ} {v : α} {x : κ × α}
    (h : x ∈ dictInsert p k v) : x ∈ p ∨ x = (k, v) := by
  unfold dictInsert at h
  by_cases hc : k ∈ p.map Prod.fst
  · rw [if_pos hc] at h
    rcases List.mem_map.mp h with ⟨kv, hkv, he⟩
    by_cases hk : kv.1 = k
    · right; rw [if_pos hk] at he; exact he.symm
    · left; rw [if_neg hk] at he; rwa [he] at hkv
  · rw [if_neg hc] at h
    rcases List.mem_append.mp h with h1 | h1
    · left; exact h1
    · right; simpa using h1

/-! Lemmas about the partition loop. -/

theorem disk_foldl_keys (usage : String → Except Unit DiskUsage) :
    ∀ (parts : List Partition) (acc : List (String × List (Option String))) (a : String),
      (a ∈ (parts.foldl (diskStep usage) acc).map Prod.fst) ↔
        (a ∈ acc.map Prod.fst ∨
          ∃ q ∈ parts, q.device = a ∧ ∃ u, usage q.mountpoint = Except.ok u) := by
  intro parts
  induction parts with
  | nil =>
    intro acc a
    simp
  | cons p ps ih =>
    intro acc a
    rw [List.foldl_cons]
    cases hu : usage p.mountpoint with
    | error e =>
      have hstep : diskStep usage acc p = acc := by unfold diskStep; rw [hu]
      rw [hstep, ih]
      constructor
      · rintro (h | ⟨q, hq, hd, w, hw⟩)
        · exact Or.inl h
        · exact Or.inr ⟨q, List.mem_cons_of_mem _ hq, hd, w, hw⟩
      · rintro (h | ⟨q, hq, hd, w, hw⟩)
        · exact Or.inl h
        · rcases List.mem_cons.mp hq with rfl | hq
          · rw [hu] at hw; cases hw
          · exact Or.inr ⟨q, hq, hd, w, hw⟩
    | ok u =>
      have hstep : diskStep usage acc p = dictInsert acc p.device (diskEntry p u) := by
        unfold diskStep; rw [hu]
      rw [hstep, ih]
      constructor
      · rintro (h | ⟨q, hq, hd, w, hw⟩)
        · rcases keys_dictInsert_sub h with h1 | h1
          · exact Or.inr ⟨p, List.mem_cons_self p ps, h1.symm, u, hu⟩
          · exact Or.inl h1
        · exact Or.inr ⟨q, List.mem_cons_of_mem _ hq, hd, w, hw⟩
      · rintro (h | ⟨q, hq, hd, w, hw⟩)
        · exact Or.inl (mem_keys_dictInsert_mono _ h)
        · rcases List.mem_cons.mp hq with rfl | hq
          · exact Or.inl (hd ▸ mem_keys_dictInsert_self acc q.device (diskEntry q u))
          · exact Or.inr ⟨q, hq, hd, w, hw⟩

theorem disk_foldl_mem (usage : String → Except Unit DiskUsage) :
    ∀ (parts : List Partition) (acc : List (String × List (Option String)))
      (d : String) (l : List (Option String)),
      (d, l) ∈ parts.foldl (diskStep usage) acc →
      (d, l) ∈ acc ∨ ∃ q u, q ∈ parts ∧ q.device = d ∧
        usage q.mountpoint = Except.ok u ∧ l = diskEntry q u := by
  intro parts
  induction parts with
  | nil =>
    intro acc d l h
    exact Or.inl (by simpa using h)
  | cons p ps ih =>
    intro acc d l h
    rw [List.foldl_cons] at h
    cases hu : usage p.mountpoint with
    | error e =>
      have hstep : diskStep usage acc p = acc := by unfold diskStep; rw [hu]
      rw [hstep] at h
      rcases ih acc d l h with h1 | ⟨q, w, hq, hd, hw, hl⟩
      · exact Or.inl h1
      · exact Or.inr ⟨q, w, List.mem_cons_of_mem _ hq, hd, hw, hl⟩
    | ok u =>
      have hstep : diskStep usage acc p = dictInsert acc p.device (diskEntry p u) := by
        unfold diskStep; rw [hu]
      rw [hstep] at h
      rcases ih _ d l h with h1 | ⟨q, w, hq, hd, hw, hl⟩
      · rcases mem_of_mem_dictInsert h1 with h2 | h2
        · exact Or.inl h2
        · injection h2 with hd hl
          exact Or.inr ⟨p, u, List.mem_cons_self p ps, hd.symm, hu, hl⟩
      · exact Or.inr ⟨q, w, List.mem_cons_of_mem _ hq, hd, hw, hl⟩

/-! Lemmas about enumeration and the network loops. -/

theorem mem_enumFrom_fst_lt {α : Type} :
    ∀ (l : List α) (n : ℕ) (x : ℕ × α), x ∈ l.enumFrom n → x.1 < n + l.length := by
  intro l
  induction l with
  | nil =>
    intro n x h
    simp at h
  | cons a as ih =>
    intro n x h
    rw [List.enumFrom_cons] at h
    rcases List.mem_cons.mp h with rfl | h
    · simp
    · have := ih (n + 1) x h
      simp only [List.length_cons] at this ⊢
      omega

theorem dictInsert_enum {α : Type} (l : List α) (v : α) :
    dictInsert l.enum l.length v = (l ++ [v]).enum := by
  have hc : l.length ∉ l.enum.map Prod.fst := by
    intro h
    rcases List.mem_map.mp h with ⟨x, hx, hfst⟩
    have hx0 : x ∈ l.enumFrom 0 := hx
    have := mem_enumFrom_fst_lt l 0 x hx0
    omega
  unfold dictInsert
  rw [if_neg hc, List.enum_append, List.enumFrom_singleton]

theorem net_inner (interfaceName : String) :
    ∀ (addrs : List Addr) (es : List (List (Option String))),
      addrs.foldl (netStepAddr interfaceName) (es.enum, es.length) =
        ((es ++ addrs.map (netEntry interfaceName)).enum,
         (es ++ addrs.map (netEntry interfaceName)).length) := by
  intro addrs
  induction addrs with
  | nil =>
    intro es
    simp
  | cons a as ih =>
    intro es
    rw [List.foldl_cons]
    have e1 : netStepAddr interfaceName (es.enum, es.length) a =
        ((es ++ [netEntry interfaceName a]).enum,
         (es ++ [netEntry interfaceName a]).length) := by
      unfold netStepAddr
      rw [dictInsert_enum]
      simp
    rw [e1, ih]
    have e2 : (es ++ [netEntry interfaceName a]) ++ as.map (netEntry interfaceName) =
        es ++ (a :: as).map (netEntry interfaceName) := by
      rw [List.append_assoc]
      rfl
    rw [e2]

theorem net_outer :
    ∀ (l : List (String × List Addr)) (es : List (List (Option String))),
      l.foldl netStepIf (es.enum, es.length) =
        ((es ++ netFlatten l).enum, (es ++ netFlatten l).length) := by
  intro l
  induction l with
  | nil =>
    intro es
    simp [netFlatten]
  | cons it rest ih =>
    intro es
    rw [List.foldl_cons]
    have e1 : netStepIf (es.enum, es.length) it =
        ((es ++ it.2.map (netEntry it.1)).enum,
         (es ++ it.2.map (netEntry it.1)).length) := by
      unfold netStepIf
      exact net_inner it.1 it.2 es
    rw [e1, ih]
    have e2 : (es ++ it.2.map (netEntry it.1)) ++ netFlatten rest =
        es ++ netFlatten (it :: rest) := by
      rw [List.append_assoc]
      rfl
    rw [e2]

theorem foldl_append_snd {β γ : Type} :
    ∀ (l : List (β × γ)) (acc : List γ),
      l.foldl (fun p x => p ++ [x.2]) acc = acc ++ l.map Prod.snd := by
  intro l
  induction l with
  | nil =>
    intro acc
    simp
  | cons x xs ih =>
    intro acc
    rw [List.foldl_cons, ih, List.append_assoc]
    rfl

/-! The claims. -/

/-- C1 (amended): under the float semantics of the source, `getSize` returns
a string for every byte count below `2^60 - 64` and returns no value
(Python `None`) for every byte count from `2^60 - 64` up through the double
range: the loop has no cap at the `"P"` prefix, and for the last 64 counts
below `1024^6` the first float division already rounds the quotient up to
`2^50` (ties to even at `2^60 - 64` itself), so even they fall through the
loop.  The upper bound `2^1024` keeps the statement inside the range of
IEEE doubles; from roughly `2^1034` on, CPython raises `OverflowError` in
the first division instead of returning — also not a string. -/
theorem getSize_below_cutoff_some_above_none :
    ∀ b : ℕ, (b < 2 ^ 60 - 64 → ∃ s, getSizeF (b : ℚ) "B" = some s) ∧
      (2 ^ 60 - 64 ≤ b → b < 2 ^ 1024 → getSizeF (b : ℚ) "B" = none) :=
  fun b => ⟨fun h => getSizeF_some_below_cutoff b "B" h,
    fun h _ => getSizeF_none_above_cutoff b "B" h⟩

/-- Witness for C1: a small byte count gets a string, while the cutoff
count `2^60 - 64` itself gets `none`. -/
theorem getSize_below_cutoff_some_above_none_witness :
    (∃ s, getSizeF ((5 : ℕ) : ℚ) "B" = some s) ∧
    getSizeF (((2 ^ 60 - 64 : ℕ)) : ℚ) "B" = none :=
  ⟨(getSize_below_cutoff_some_above_none 5).1 (by norm_num),
   (getSize_below_cutoff_some_above_none (2 ^ 60 - 64)).2 (le_refl _) (by norm_num)⟩

/-- C1 counterexample: at the byte count `1024^6` the claim "a P-prefixed
string is returned rather than no value" is false — the program returns
`None` (every division is exact there, so float and exact semantics
agree). -/
theorem getSize_pow6_returns_none : getSizeF ((1024 : ℚ) ^ 6) "B" = none := by
  show getSizeLoopF ["", "K", "M", "G", "T", "P"] ((1024 : ℚ) ^ 6) "B" = none
  apply getSizeLoopF_none
  norm_num

/-- C2 (code bug): the snapshot fields are not computed fresh on each
collection: the class attributes `svmem` and `ifAddrs` are evaluated once
at module load (against `exOS`), so after the operating system moves to `exOS2`
(different memory counters, interface list now empty) a collection still
reports the import-time values, not the current ones. -/
theorem snapshot_fields_stale_across_calls :
    exOS.svmem ≠ exOS2.svmem ∧ exOS.ifAddrs ≠ exOS2.ifAddrs ∧
    SysInfo.PercentageMemory (SysInfo.init exOS) exOS2 =
      SysInfo.PercentageMemory (SysInfo.init exOS) exOS ∧
    SysInfo.PercentageMemory (SysInfo.init exOS) exOS2 ≠
      pyFloatStr exOS2.svmem.percent ++ "%" ∧
    SysInfo.Networks (SysInfo.init exOS) exOS2 =
      SysInfo.Networks (SysInfo.init exOS) exOS ∧
    SysInfo.Networks (SysInfo.init exOS) exOS2 ≠ (netFlatten exOS2.ifAddrs).enum := by
  refine ⟨by decide, by decide, rfl, ?_, rfl, by decide⟩
  have hL : SysInfo.PercentageMemory (SysInfo.init exOS) exOS2 =
      toString (10 : ℕ) ++ "." ++ "0" ++ "%" := by
    show pyFloatStr (SysInfo.init exOS).svmem.percent ++ "%" = _
    rw [pyFloatStr_eq_nat (SysInfo.init exOS).svmem.percent 10
      (by norm_num [SysInfo.init, exOS])]
  have hR : pyFloatStr exOS2.svmem.percent ++ "%" =
      toString (90 : ℕ) ++ "." ++ "0" ++ "%" := by
    rw [pyFloatStr_eq_nat exOS2.svmem.percent 90 (by norm_num [exOS2, exOS])]
  rw [hL, hR]
  decide

/-- C3 counterexample: `2^60 - 1` lies in the `"P"` bucket
(`1024^5 ≤ 2^60 - 1 < 1024^6`), yet the program produces no `"P"`-prefixed
string and no numeric part at all: the first float division rounds
`(2^60 - 1)/1024` up to `2^50`, the value at the `"P"` step is exactly 1024,
the `< 1024` test fails, and the loop falls through returning `None`. -/
theorem getSize_pbucket_counterexample :
    1024 ^ 5 ≤ 2 ^ 60 - 1 ∧ (2 ^ 60 - 1 : ℕ) < 1024 ^ (5 + 1) ∧
    getSizeF (((2 ^ 60 - 1 : ℕ)) : ℚ) "B" = none :=
  ⟨by norm_num, by norm_num, getSizeF_none_above_cutoff _ "B" (by omega)⟩

/-- C3 (amended): for every byte count `b` with `1024^k ≤ b < 1024^(k+1)`:
for `k ≤ 4` the returned string carries the unit prefix at index `k` of
`["", "K", "M", "G", "T", "P"]` and its numeric part is `b / 1024^k` rounded
to two decimal places (fixed-point, ties to even); for `k = 5` the same
exact form holds as long as `b` has at most 53 significant bits
(`b < 2^53`), and up to the `2^60 - 65` cutoff the string still carries the
`"P"` prefix, its numeric part now computed from the correctly rounded
double quotient `b/1024`. -/
theorem getSize_selects_unit_index :
    (∀ (k : ℕ), k ≤ 4 → ∀ (b : ℕ) (suffix : String),
      1024 ^ k ≤ b → b < 1024 ^ (k + 1) →
      getSizeF (b : ℚ) suffix =
        some (formatF2 ((b : ℚ) / 1024 ^ k) ++
          ["", "K", "M", "G", "T", "P"].getD k "" ++ suffix)) ∧
    (∀ (b : ℕ) (suffix : String), 1024 ^ 5 ≤ b → b < 2 ^ 53 →
      getSizeF (b : ℚ) suffix =
        some (formatF2 ((b : ℚ) / 1024 ^ 5) ++ "P" ++ suffix)) ∧
    (∀ (b : ℕ) (suffix : String), 1024 ^ 5 ≤ b → b ≤ 2 ^ 60 - 65 →
      getSizeF (b : ℚ) suffix =
        some (formatF2 (roundFloat ((b : ℚ) / 1024) / 1024 ^ 4) ++ "P" ++ suffix)) := by
  refine ⟨?_, ?_, ?_⟩
  · intro k hk b suffix h1 h2
    have hb53 : b < 2 ^ 53 :=
      lt_of_lt_of_le h2
        (le_trans (Nat.pow_le_pow_right (by norm_num) (show k + 1 ≤ 5 by omega))
          (by norm_num : (1024:ℕ) ^ 5 ≤ 2 ^ 53))
    rw [getSizeF_eq_getSize b hb53 suffix]
    exact getSize_unit k (by omega) (b : ℚ) (by exact_mod_cast h1) (by exact_mod_cast h2) suffix
  · intro b suffix h1 h2
    rw [getSizeF_eq_getSize b h2 suffix]
    have h6 : (b : ℚ) < 1024 ^ (5 + 1) := by
      have hq : (b : ℚ) < ((2 ^ 53 : ℕ) : ℚ) := by exact_mod_cast h2
      have he : ((2 ^ 53 : ℕ) : ℚ) ≤ 1024 ^ (5 + 1) := by norm_num
      linarith
    rw [getSize_unit 5 (le_refl 5) (b : ℚ) (by exact_mod_cast h1) h6 suffix]
    rfl
  · intro b suffix h1 h2
    exact getSizeF_pbucket b suffix (by omega) h2

/-- Witness for C3 at `k = 2`, `b = 1253656`. -/
theorem getSize_selects_unit_index_witness :
    (2 ≤ 4 ∧ 1024 ^ 2 ≤ 1253656 ∧ 1253656 < 1024 ^ (2 + 1)) ∧
    getSizeF ((1253656 : ℕ) : ℚ) "B" =
      some (formatF2 (((1253656 : ℕ) : ℚ) / 1024 ^ 2) ++
        ["", "K", "M", "G", "T", "P"].getD 2 "" ++ "B") :=
  ⟨⟨by norm_num, by norm_num, by norm_num⟩,
   getSize_selects_unit_index.1 2 (by norm_num) 1253656 "B" (by norm_num) (by norm_num)⟩

/-- C4: the concrete cases of the formatter with the default suffix "B":
0 bytes, one kibibyte, the two documented examples, and one tebibyte. -/
theorem getSize_concrete_cases :
    getSize 0 "B" = some "0.00B" ∧
    getSize 1024 "B" = some "1.00KB" ∧
    getSize 1253656 "B" = some "1.20MB" ∧
    getSize 1253656678 "B" = some "1.17GB" ∧
    getSize 1099511627776 "B" = some "1.00TB" := by
  refine ⟨?_, ?_, ?_, ?_, ?_⟩
  · have h : roundHalfEven (100 * (0 : ℚ)) = ((0 : ℕ) : ℤ) := by
      rw [roundHalfEven_eq_of_lt _ 0 (by norm_num) (by norm_num)]
      norm_num
    simp only [getSize, getSizeLoop]
    rw [if_pos (by norm_num), formatF2_eq_of _ 0 h]
    rfl
  · have h : roundHalfEven (100 * ((1024 : ℚ) / 1024 ^ 1)) = ((100 : ℕ) : ℤ) := by
      rw [roundHalfEven_eq_of_lt _ 100 (by norm_num) (by norm_num)]
      norm_num
    rw [getSize_unit 1 (by norm_num) _ (by norm_num) (by norm_num) "B",
      formatF2_eq_of _ 100 h]
    rfl
  · have h : roundHalfEven (100 * ((1253656 : ℚ) / 1024 ^ 2)) = ((120 : ℕ) : ℤ) := by
      rw [roundHalfEven_eq_of_gt _ 119 (by norm_num) (by norm_num)]
      norm_num
    rw [getSize_unit 2 (by norm_num) _ (by norm_num) (by norm_num) "B",
      formatF2_eq_of _ 120 h]
    rfl
  · have h : roundHalfEven (100 * ((1253656678 : ℚ) / 1024 ^ 3)) = ((117 : ℕ) : ℤ) := by
      rw [roundHalfEven_eq_of_gt _ 116 (by norm_num) (by norm_num)]
      norm_num
    rw [getSize_unit 3 (by norm_num) _ (by norm_num) (by norm_num) "B",
      formatF2_eq_of _ 117 h]
    rfl
  · have h : roundHalfEven (100 * ((1099511627776 : ℚ) / 1024 ^ 4)) = ((100 : ℕ) : ℤ) := by
      rw [roundHalfEven_eq_of_lt _ 100 (by norm_num) (by norm_num)]
      norm_num
    rw [getSize_unit 4 (by norm_num) _ (by norm_num) (by norm_num) "B",
      formatF2_eq_of _ 100 h]
    rfl

/-- C5: for every snapshot, the length of the per-core utilization list
`CPUusage` equals the logical core count `TotalCores` read at the same
collection instant, given psutil's contract that `cpu_percent(percpu=True)`
returns one entry per logical CPU. -/
theorem cpuUsage_length_eq_totalCores :
    ∀ (s : SysInfo) (σ : OSState),
      σ.cpuPercentPercpu.length = σ.cpuCountLogical →
      (SysInfo.CPUusage s σ).length = SysInfo.TotalCores s σ := by
  intro s σ h
  unfold SysInfo.CPUusage SysInfo.TotalCores
  rw [foldl_append_snd, List.nil_append, List.enum_map_snd, h]

/-- Witness for C5 at the concrete state `exOS` (two logical cores, two
per-core samples). -/
theorem cpuUsage_length_eq_totalCores_witness :
    exOS.cpuPercentPercpu.length = exOS.cpuCountLogical ∧
    (SysInfo.CPUusage (SysInfo.init exOS) exOS).length =
      SysInfo.TotalCores (SysInfo.init exOS) exOS :=
  ⟨by decide, cpuUsage_length_eq_totalCores (SysInfo.init exOS) exOS (by decide)⟩

/-- C6: a partition whose usage query raises `PermissionError` never appears
as a key of the Disk mapping (devices being unique per enumeration, as the
data model states), and the enumeration continues: every partition whose
query succeeds does appear as a key. -/
theorem diskPartitions_skips_failed_partition :
    ∀ (s : SysInfo) (σ : OSState) (p : Partition),
      p ∈ s.partitions →
      σ.diskUsage p.mountpoint = Except.error () →
      (s.partitions.map Partition.device).Nodup →
      p.device ∉ (SysInfo.DiskPartitions s σ).map Prod.fst ∧
      ∀ q ∈ s.partitions, (∃ u, σ.diskUsage q.mountpoint = Except.ok u) →
        q.device ∈ (SysInfo.DiskPartitions s σ).map Prod.fst := by
  intro s σ p hp herr hnd
  constructor
  · intro hmem
    unfold SysInfo.DiskPartitions at hmem
    rw [disk_foldl_keys] at hmem
    rcases hmem with h | ⟨q, hq, hdq, u, hqu⟩
    · simp at h
    · have hqp : q = p := List.inj_on_of_nodup_map hnd hq hp hdq
      rw [hqp, herr] at hqu
      cases hqu
  · intro q hq hu
    rcases hu with ⟨u, hqu⟩
    unfold SysInfo.DiskPartitions
    rw [disk_foldl_keys]
    exact Or.inr ⟨q, hq, rfl, u, hqu⟩

/-- Witness for C6: in the concrete state, `pBad` raises `PermissionError`,
its device is absent from the mapping, and the successful `pOk` is present. -/
theorem diskPartitions_skips_failed_partition_witness :
    (pBad ∈ (SysInfo.init exOS).partitions ∧
     exOS.diskUsage pBad.mountpoint = Except.error () ∧
     ((SysInfo.init exOS).partitions.map Partition.device).Nodup) ∧
    (pBad.device ∉ (SysInfo.DiskPartitions (SysInfo.init exOS) exOS).map Prod.fst ∧
     ∀ q ∈ (SysInfo.init exOS).partitions,
       (∃ u, exOS.diskUsage q.mountpoint = Except.ok u) →
       q.device ∈ (SysInfo.DiskPartitions (SysInfo.init exOS) exOS).map Prod.fst) :=
  ⟨⟨by decide, rfl, by decide⟩,
   diskPartitions_skips_failed_partition (SysInfo.init exOS) exOS pBad
     (by decide) rfl (by decide)⟩

/-- C7: the memory and swap used-percentage fields are the OS-reported percent
value rendered directly with a "%" sign appended; they depend only on that
percent value, never on the total/used byte counts (so they are not
recomputed from them). -/
theorem percentages_rendered_directly :
    ∀ (s t : SysInfo) (σ τ : OSState),
      s.svmem.percent = t.svmem.percent →
      s.swap.percent = t.swap.percent →
      (SysInfo.PercentageMemory s σ = SysInfo.PercentageMemory t τ ∧
       SysInfo.PercentageSwap s σ = SysInfo.PercentageSwap t τ ∧
       SysInfo.PercentageMemory s σ = pyFloatStr s.svmem.percent ++ "%" ∧
       SysInfo.PercentageSwap s σ = pyFloatStr s.swap.percent ++ "%") := by
  intro s t σ τ h1 h2
  refine ⟨?_, ?_, rfl, rfl⟩
  · unfold SysInfo.PercentageMemory
    rw [h1]
  · unfold SysInfo.PercentageSwap
    rw [h2]

/-- Witness for C7: two states with equal OS-reported percentages but
different byte counters produce identical percentage strings. -/
theorem percentages_rendered_directly_witness :
    ((SysInfo.init exOS).svmem.percent = (SysInfo.init exOS3).svmem.percent ∧
     (SysInfo.init exOS).swap.percent = (SysInfo.init exOS3).swap.percent ∧
     (SysInfo.init exOS).svmem.total ≠ (SysInfo.init exOS3).svmem.total) ∧
    (SysInfo.PercentageMemory (SysInfo.init exOS) exOS =
       SysInfo.PercentageMemory (SysInfo.init exOS3) exOS3 ∧
     SysInfo.PercentageSwap (SysInfo.init exOS) exOS =
       SysInfo.PercentageSwap (SysInfo.init exOS3) exOS3 ∧
     SysInfo.PercentageMemory (SysInfo.init exOS) exOS =
       pyFloatStr (SysInfo.init exOS).svmem.percent ++ "%" ∧
     SysInfo.PercentageSwap (SysInfo.init exOS) exOS =
       pyFloatStr (SysInfo.init exOS).swap.percent ++ "%") :=
  ⟨⟨rfl, rfl, by decide⟩,
   percentages_rendered_directly (SysInfo.init exOS) (SysInfo.init exOS3) exOS exOS3 rfl rfl⟩

/-- C8: the Networks collection is exactly the enumeration (with keys
0, 1, 2, ...) of the flattened (interface, address) table: one entry per
bound address of every enumerated interface, each entry carrying the
interface name and the address-family tag. -/
theorem networks_one_entry_per_address :
    ∀ (s : SysInfo) (σ : OSState),
      SysInfo.Networks s σ = (netFlatten s.ifAddrs).enum ∧
      (SysInfo.Networks s σ).length = (netFlatten s.ifAddrs).length := by
  intro s σ
  have h : s.ifAddrs.foldl netStepIf ([], 0) =
      ((netFlatten s.ifAddrs).enum, (netFlatten s.ifAddrs).length) := by
    have h0 := net_outer s.ifAddrs []
    simpa using h0
  constructor
  · show (s.ifAddrs.foldl netStepIf ([], 0)).1 = _
    rw [h]
  · show (s.ifAddrs.foldl netStepIf ([], 0)).1.length = _
    rw [h]
    exact List.enum_length

/-- C9: `getSize` is pure and deterministic: its result depends only on the
byte count and the suffix (not on the instance or the operating-system
state), and a call leaves the program state unchanged. -/
theorem getSize_pure_deterministic :
    ∀ (s t : SysInfo) (σ τ : OSState) (b : ℚ) (suffix : String),
      (getSizeCall s σ b suffix).2 = (getSizeCall t τ b suffix).2 ∧
      (getSizeCall s σ b suffix).1 = (s, σ) :=
  fun _ _ _ _ _ _ => ⟨rfl, rfl⟩

/-- C10: every Disk mapping entry's used-percentage element is the
OS-reported percent value passed through the byte-size formatter with a "%"
appended; at 43.2 percent this renders as "43.20B%" (the percent value gains
the unit suffix "B"), not as a plain percentage. -/
theorem disk_percent_through_formatter :
    (∀ (s : SysInfo) (σ : OSState) (d : String) (l : List (Option String)),
      (d, l) ∈ SysInfo.DiskPartitions s σ →
      ∃ q u, q ∈ s.partitions ∧ q.device = d ∧
        σ.diskUsage q.mountpoint = Except.ok u ∧ l = diskEntry q u ∧
        l.getD 5 none = some (optStr (getSize u.percent "B") ++ "%")) ∧
    optStr (getSize (43.2 : ℚ) "B") ++ "%" = "43.20B%" := by
  constructor
  · intro s σ d l hmem
    unfold SysInfo.DiskPartitions at hmem
    rcases disk_foldl_mem σ.diskUsage s.partitions [] d l hmem with h | ⟨q, u, hq, hd, hu, hl⟩
    · simp at h
    · exact ⟨q, u, hq, hd, hu, hl, by rw [hl]; rfl⟩
  · have h : roundHalfEven (100 * (43.2 : ℚ)) = ((4320 : ℕ) : ℤ) := by
      rw [roundHalfEven_eq_of_lt _ 4320 (by norm_num) (by norm_num)]
      norm_num
    have hs : getSize (43.2 : ℚ) "B" = some (formatF2 (43.2 : ℚ) ++ "" ++ "B") := by
      simp only [getSize, getSizeLoop]
      rw [if_pos (by norm_num)]
    rw [hs, formatF2_eq_of _ 4320 h]
    rfl

/-- Witness for C10: the concrete Disk mapping contains the entry for `pOk`,
whose percent element is obtained by the formatter. -/
theorem disk_percent_through_formatter_witness :
    ("devOk", diskEntry pOk u43) ∈ SysInfo.DiskPartitions (SysInfo.init exOS) exOS ∧
    (∃ q u, q ∈ (SysInfo.init exOS).partitions ∧ q.device = "devOk" ∧
      exOS.diskUsage q.mountpoint = Except.ok u ∧ diskEntry pOk u43 = diskEntry q u ∧
      (diskEntry pOk u43).getD 5 none = some (optStr (getSize u.percent "B") ++ "%")) := by
  have hmem : ("devOk", diskEntry pOk u43) ∈
      SysInfo.DiskPartitions (SysInfo.init exOS) exOS := by
    have e : SysInfo.DiskPartitions (SysInfo.init exOS) exOS =
        [("devOk", diskEntry pOk u43)] := rfl
    rw [e]
    exact List.mem_singleton.mpr rfl
  exact ⟨hmem,
    disk_percent_through_formatter.1 (SysInfo.init exOS) exOS "devOk" (diskEntry pOk u43) hmem⟩

end PySystemInfo
